import Mathlib

/-!
Verification of the LEDTicker core (src/main.py) against its specification.

The Python source is shallowly embedded: Python ints become `Int`/`Nat`,
Python floats that only ever hold exact pixel accumulators are modelled as
`Rat`, Python `int(...)` truncation toward zero is `pyTrunc`, Python `%` on
ints with a positive modulus coincides with `Int.emod`, dictionaries that are
only iterated in insertion order become association lists, and `datetime.time`
values (compared lexicographically by the Python code) are modelled as minutes
since midnight, which is order-isomorphic.
-/

namespace LEDTicker

/-- Python `int(...)` applied to a real number truncates toward zero. -/
def pyTrunc (q : ℚ) : ℤ := if q < 0 then ⌈q⌉ else ⌊q⌋

theorem pyTrunc_of_nonneg {q : ℚ} (h : 0 ≤ q) : pyTrunc q = ⌊q⌋ := by
  simp [pyTrunc, not_lt.mpr h]

theorem pyTrunc_of_nonpos {q : ℚ} (h : q ≤ 0) : pyTrunc q = ⌈q⌉ := by
  rcases lt_or_eq_of_le h with h' | h'
  · simp [pyTrunc, h']
  · simp [pyTrunc, h']

/-- Model of `MasterStrip` (src/main.py, class MasterStrip): only the fields
that the arithmetic methods read.  `text_w` is the measured text advance
(`max(8, fm.horizontalAdvance(text))` in `rebuild`), `module_w`/`module_h`
are the module dimensions passed to the constructor. -/
structure MasterStrip where
  text_w : ℕ
  module_w : ℕ
  module_h : ℕ
deriving DecidableEq, Repr

/-- Model of `MasterStrip.period_frames` (src/main.py lines 251-252):
`self.text_w // gcd(self.text_w, max(1, int_speed_px_per_frame))`. -/
def MasterStrip.period_frames (st : MasterStrip) (int_speed_px_per_frame : ℤ) : ℕ :=
  st.text_w / Nat.gcd st.text_w (max 1 int_speed_px_per_frame).toNat

/-- Model of `MasterStrip.tile_src_rect_h` (src/main.py lines 255-261).
Returns the components of `QRect(x, 0, module_w, module_h)` where
`x = int(±offset ∓ module_index*module_w) % text_w`. -/
def MasterStrip.tile_src_rect_h (st : MasterStrip) (offset_px : ℚ) (module_index : ℕ)
    (reverse : Bool) : ℤ × ℤ × ℕ × ℕ :=
  let x : ℤ :=
    if reverse then
      pyTrunc (-offset_px - (module_index : ℚ) * (st.module_w : ℚ)) % (st.text_w : ℤ)
    else
      pyTrunc (offset_px + (module_index : ℚ) * (st.module_w : ℚ)) % (st.text_w : ℤ)
  (x, 0, st.module_w, st.module_h)

/-- Model of `MasterStrip.tile_src_rect_v` (src/main.py lines 264-270).
Returns the components of `QRect(0, y, module_w, module_h)` where
`y = int(±offset ∓ module_index*module_h) % (2*text_w)` — note the modulus
is the doubled strip height `2*text_w`, per the source. -/
def MasterStrip.tile_src_rect_v (st : MasterStrip) (offset_px : ℚ) (module_index : ℕ)
    (reverse : Bool) : ℤ × ℤ × ℕ × ℕ :=
  let period : ℤ := 2 * (st.text_w : ℤ)
  let y : ℤ :=
    if reverse then
      pyTrunc (-offset_px - (module_index : ℚ) * (st.module_h : ℚ)) % period
    else
      pyTrunc (offset_px + (module_index : ℚ) * (st.module_h : ℚ)) % period
  (0, y, st.module_w, st.module_h)

/-- Core number theory for the loop period: `W / gcd W s` is positive, sends
`s` to a multiple of `W`, and is minimal among positive `n` with `W ∣ n*s`. -/
theorem period_nat_spec (W s : ℕ) (hW : 0 < W) :
    0 < W / Nat.gcd W s ∧ W ∣ (W / Nat.gcd W s) * s ∧
    ∀ n : ℕ, 0 < n → W ∣ n * s → W / Nat.gcd W s ≤ n := by
  set g := Nat.gcd W s with hg
  have hgW : g ∣ W := Nat.gcd_dvd_left W s
  have hgs : g ∣ s := Nat.gcd_dvd_right W s
  have hgpos : 0 < g := Nat.gcd_pos_of_pos_left s hW
  have hco : Nat.Coprime (W / g) (s / g) := Nat.coprime_div_gcd_div_gcd hgpos
  obtain ⟨w', hw'⟩ := hgW
  obtain ⟨s', hs'⟩ := hgs
  have hWg : W / g = w' := by rw [hw']; exact Nat.mul_div_cancel_left w' hgpos
  have hsg : s / g = s' := by rw [hs']; exact Nat.mul_div_cancel_left s' hgpos
  have hmul : (W / g) * s = W * (s / g) := by rw [hWg, hsg, hw', hs']; ring
  have hw0 : 0 < w' := by
    rcases Nat.eq_zero_or_pos w' with h0 | h
    · subst h0
      rw [Nat.mul_zero] at hw'
      omega
    · exact h
  refine ⟨by rw [hWg]; exact hw0, ⟨s / g, hmul⟩, ?_⟩
  intro n hn hdvd
  rw [hWg, hsg] at hco
  have h1 : w' ∣ n * s' := by
    have h2 : g * w' ∣ g * (n * s') := by
      rw [← hw']
      calc W ∣ n * s := hdvd
        _ = g * (n * s') := by rw [hs']; ring
    exact (mul_dvd_mul_iff_left (by omega : g ≠ 0)).mp h2
  have h3 : w' ∣ n := hco.dvd_of_dvd_mul_right h1
  rw [hWg]
  exact Nat.le_of_dvd hn h3

/-- C1 — `period_frames` returns `W / gcd(W, s)` for integer speed `s ≥ 1`
(the `max(1, s)` clamp is the identity there), and this value is the least
positive frame count `n` such that `n*s` is a multiple of the strip width,
i.e. after which the scroll offset modulo strip width returns to its start. -/
theorem period_frames_correct (st : MasterStrip) (s : ℤ)
    (hW : 0 < st.text_w) (hs : 1 ≤ s) :
    st.period_frames s = st.text_w / Nat.gcd st.text_w s.toNat ∧
    0 < st.period_frames s ∧
    (st.text_w : ℤ) ∣ (st.period_frames s : ℤ) * s ∧
    ∀ n : ℕ, 0 < n → (st.text_w : ℤ) ∣ (n : ℤ) * s → st.period_frames s ≤ n := by
  have hmax : max 1 s = s := max_eq_right hs
  have hsn : (s.toNat : ℤ) = s := Int.toNat_of_nonneg (le_trans one_pos.le hs)
  have hper : st.period_frames s = st.text_w / Nat.gcd st.text_w s.toNat := by
    rw [MasterStrip.period_frames, hmax]
  obtain ⟨hpos, hdvd, hmin⟩ := period_nat_spec st.text_w s.toNat hW
  refine ⟨hper, hper ▸ hpos, ?_, ?_⟩
  · rw [hper, ← hsn]
    exact_mod_cast hdvd
  · intro n hn hdvdn
    rw [hper]
    apply hmin n hn
    have : (st.text_w : ℤ) ∣ (n : ℤ) * (s.toNat : ℤ) := hsn ▸ hdvdn
    exact_mod_cast this

/-- Witness for C1 at the concrete strip `text_w = 12`, speed `s = 8`:
`period_frames = 3` and `3` is the least `n` with `12 ∣ 8n`. -/
theorem period_frames_correct_witness :
    0 < (MasterStrip.mk 12 4 4).text_w ∧ (1 : ℤ) ≤ 8 ∧
    ((MasterStrip.mk 12 4 4).period_frames 8 = 12 / Nat.gcd 12 (8 : ℤ).toNat ∧
     0 < (MasterStrip.mk 12 4 4).period_frames 8 ∧
     ((12 : ℤ)) ∣ ((MasterStrip.mk 12 4 4).period_frames 8 : ℤ) * 8 ∧
     ∀ n : ℕ, 0 < n → ((12 : ℤ)) ∣ (n : ℤ) * 8 → (MasterStrip.mk 12 4 4).period_frames 8 ≤ n) :=
  ⟨by decide, by decide, period_frames_correct (MasterStrip.mk 12 4 4) 8 (by decide) (by decide)⟩

/-- `period_frames s * s` is a multiple of the strip width (speed `s ≥ 1`). -/
theorem period_frames_dvd (st : MasterStrip) (s : ℤ) (hW : 0 < st.text_w) (hs : 1 ≤ s) :
    (st.text_w : ℤ) ∣ (st.period_frames s : ℤ) * s := by
  have hmax : max 1 s = s := max_eq_right hs
  have hsn : (s.toNat : ℤ) = s := Int.toNat_of_nonneg (le_trans one_pos.le hs)
  obtain ⟨-, hdvd, -⟩ := period_nat_spec st.text_w s.toNat hW
  have hper : st.period_frames s = st.text_w / Nat.gcd st.text_w s.toNat := by
    rw [MasterStrip.period_frames, hmax]
  have hdvd' : (st.text_w : ℤ) ∣
      ((st.text_w / Nat.gcd st.text_w s.toNat : ℕ) : ℤ) * (s.toNat : ℤ) := by
    exact_mod_cast hdvd
  rw [hsn] at hdvd'
  rw [hper]
  exact hdvd'

theorem emod_add_of_dvd (a k W : ℤ) (h : W ∣ k) : (a + k) % W = a % W := by
  obtain ⟨t, rfl⟩ := h
  exact Int.add_mul_emod_self_left a W t

theorem emod_sub_of_dvd (a k W : ℤ) (h : W ∣ k) : (a - k) % W = a % W := by
  obtain ⟨t, rfl⟩ := h
  rw [sub_eq_add_neg, ← mul_neg]
  exact Int.add_mul_emod_self_left a W (-t)

/-- Truncation of the forward sampling phase: for nonnegative offset the
Python `int(offset + i*m)` is `⌊offset⌋ + i*m`. -/
theorem pyTrunc_phase_fwd (o : ℚ) (ho : 0 ≤ o) (i m : ℕ) :
    pyTrunc (o + (i : ℚ) * (m : ℚ)) = ⌊o⌋ + (i : ℤ) * (m : ℤ) := by
  have h0 : 0 ≤ o + (i : ℚ) * (m : ℚ) := by positivity
  rw [pyTrunc_of_nonneg h0]
  have h1 : o + (i : ℚ) * (m : ℚ) = o + ((i * m : ℕ) : ℚ) := by push_cast; ring
  rw [h1, Int.floor_add_nat]
  push_cast
  ring

/-- Truncation of the reversed sampling phase: for nonnegative offset the
Python `int(-offset - i*m)` is `-(⌊offset⌋ + i*m)`. -/
theorem pyTrunc_phase_rev (o : ℚ) (ho : 0 ≤ o) (i m : ℕ) :
    pyTrunc (-o - (i : ℚ) * (m : ℚ)) = -(⌊o⌋ + (i : ℤ) * (m : ℤ)) := by
  have hsum : (0 : ℚ) ≤ o + (i : ℚ) * (m : ℚ) := by positivity
  have h0 : -o - (i : ℚ) * (m : ℚ) ≤ 0 := by linarith
  rw [pyTrunc_of_nonpos h0]
  have h1 : -o - (i : ℚ) * (m : ℚ) = -(o + ((i * m : ℕ) : ℚ)) := by push_cast; ring
  rw [h1, Int.ceil_neg, Int.floor_add_nat]
  push_cast
  ring

/-- C2 — loop closure: advancing the scroll offset by `period_frames(s) * s`
pixels reproduces the horizontal sampling position of every module, in both
direction senses, so a render loop of exactly `period_frames(s)` frames at
`s` px/frame is seamless when concatenated with itself. -/
theorem tile_src_rect_h_loop_closure (st : MasterStrip) (o : ℚ) (i : ℕ) (s : ℤ) (rev : Bool)
    (hW : 0 < st.text_w) (ho : 0 ≤ o) (hs : 1 ≤ s) :
    st.tile_src_rect_h (o + (st.period_frames s : ℚ) * (s : ℚ)) i rev =
      st.tile_src_rect_h o i rev := by
  have hdvd := period_frames_dvd st s hW hs
  set k : ℤ := (st.period_frames s : ℤ) * s with hk
  have hk0 : (0 : ℤ) ≤ k := by
    have h1 : (0 : ℤ) ≤ s := le_trans one_pos.le hs
    exact mul_nonneg (Int.natCast_nonneg _) h1
  have hkQ : (st.period_frames s : ℚ) * (s : ℚ) = (k : ℚ) := by rw [hk]; push_cast; ring
  have ho' : (0 : ℚ) ≤ o + (k : ℚ) := by
    have : (0 : ℚ) ≤ (k : ℚ) := by exact_mod_cast hk0
    linarith
  cases rev with
  | false =>
    simp only [MasterStrip.tile_src_rect_h, Bool.false_eq_true, if_false, Prod.mk.injEq,
      and_true, true_and]
    have h1 : o + (st.period_frames s : ℚ) * (s : ℚ) + (i : ℚ) * (st.module_w : ℚ)
        = (o + (k : ℚ)) + (i : ℚ) * (st.module_w : ℚ) := by rw [hkQ]
    rw [h1, pyTrunc_phase_fwd _ ho' i st.module_w, pyTrunc_phase_fwd o ho i st.module_w,
      Int.floor_add_int]
    have h2 : ⌊o⌋ + k + (i : ℤ) * (st.module_w : ℤ)
        = (⌊o⌋ + (i : ℤ) * (st.module_w : ℤ)) + k := by ring
    rw [h2]
    exact emod_add_of_dvd _ _ _ hdvd
  | true =>
    simp only [MasterStrip.tile_src_rect_h, if_true, Prod.mk.injEq, and_true, true_and]
    have h1 : -(o + (st.period_frames s : ℚ) * (s : ℚ)) - (i : ℚ) * (st.module_w : ℚ)
        = -(o + (k : ℚ)) - (i : ℚ) * (st.module_w : ℚ) := by rw [hkQ]
    rw [h1, pyTrunc_phase_rev _ ho' i st.module_w, pyTrunc_phase_rev o ho i st.module_w,
      Int.floor_add_int]
    have h2 : -(⌊o⌋ + k + (i : ℤ) * (st.module_w : ℤ))
        = -(⌊o⌋ + (i : ℤ) * (st.module_w : ℤ)) - k := by ring
    rw [h2]
    exact emod_sub_of_dvd _ _ _ hdvd

/-- Witness for C2 at strip `text_w = 10`, offset `3/2`, module index `1`,
speed `s = 4`, forward sense. -/
theorem tile_src_rect_h_loop_closure_witness :
    0 < (MasterStrip.mk 10 4 3).text_w ∧ (0 : ℚ) ≤ 3/2 ∧ (1 : ℤ) ≤ 4 ∧
    (MasterStrip.mk 10 4 3).tile_src_rect_h
        (3/2 + ((MasterStrip.mk 10 4 3).period_frames 4 : ℚ) * ((4 : ℤ) : ℚ)) 1 false =
      (MasterStrip.mk 10 4 3).tile_src_rect_h (3/2) 1 false :=
  ⟨by decide, by norm_num, by decide,
    tile_src_rect_h_loop_closure (MasterStrip.mk 10 4 3) (3/2) 1 4 false
      (by decide) (by norm_num) (by decide)⟩

/-- Modelled from C3's words, for comparison only: vertical sampling with the
per-tile phase step `module_h` "taken modulo text_length (the single strip's
length, text_w)" — the source's `tile_src_rect_v` instead reduces modulo the
doubled strip height `2*text_w`. -/
def tile_src_rect_v_claimed (st : MasterStrip) (offset_px : ℚ) (module_index : ℕ)
    (reverse : Bool) : ℤ × ℤ × ℕ × ℕ :=
  let y : ℤ :=
    if reverse then
      pyTrunc (-offset_px - (module_index : ℚ) * (st.module_h : ℚ)) % (st.text_w : ℤ)
    else
      pyTrunc (offset_px + (module_index : ℚ) * (st.module_h : ℚ)) % (st.text_w : ℤ)
  (0, y, st.module_w, st.module_h)

/-- C3 counterexample — at strip `text_w = 10`, offset `15`, module index `0`:
the source computes `y = 15 % 20 = 15` while the claimed modulus `text_w`
would give `15 % 10 = 5`. -/
theorem tile_src_rect_v_modulus_counterexample :
    (MasterStrip.mk 10 4 3).tile_src_rect_v 15 0 false ≠
      tile_src_rect_v_claimed (MasterStrip.mk 10 4 3) 15 0 false := by
  simp only [MasterStrip.tile_src_rect_v, tile_src_rect_v_claimed, Bool.false_eq_true, if_false]
  norm_num [pyTrunc, Int.floor_ofNat]

/-- C3 amended — sampling positions: for nonnegative offsets the horizontal
source x is `(⌊o⌋ + i*module_w) mod text_w` for `left_right` and
`(-(⌊o⌋ + i*module_w)) mod text_w` for `right_left` (direction reverses both
motion and phase), while the vertical source y uses `module_h` as the
per-tile phase step reduced modulo the DOUBLED strip length `2*text_w`
(not `text_w` as the claim stated). -/
theorem tile_sampling_positions (st : MasterStrip) (o : ℚ) (i : ℕ) (ho : 0 ≤ o) :
    st.tile_src_rect_h o i false =
      ((⌊o⌋ + (i : ℤ) * (st.module_w : ℤ)) % (st.text_w : ℤ), 0, st.module_w, st.module_h) ∧
    st.tile_src_rect_h o i true =
      ((-(⌊o⌋ + (i : ℤ) * (st.module_w : ℤ))) % (st.text_w : ℤ), 0, st.module_w, st.module_h) ∧
    st.tile_src_rect_v o i false =
      (0, (⌊o⌋ + (i : ℤ) * (st.module_h : ℤ)) % (2 * (st.text_w : ℤ)), st.module_w, st.module_h) ∧
    st.tile_src_rect_v o i true =
      (0, (-(⌊o⌋ + (i : ℤ) * (st.module_h : ℤ))) % (2 * (st.text_w : ℤ)), st.module_w, st.module_h) := by
  refine ⟨?_, ?_, ?_, ?_⟩
  · simp only [MasterStrip.tile_src_rect_h, Bool.false_eq_true, if_false]
    rw [pyTrunc_phase_fwd o ho]
  · simp only [MasterStrip.tile_src_rect_h, if_true]
    rw [pyTrunc_phase_rev o ho]
  · simp only [MasterStrip.tile_src_rect_v, Bool.false_eq_true, if_false]
    rw [pyTrunc_phase_fwd o ho]
  · simp only [MasterStrip.tile_src_rect_v, if_true]
    rw [pyTrunc_phase_rev o ho]

/-- Witness for C3 amended at strip `text_w = 10`, offset `3/2`, index `2`. -/
theorem tile_sampling_positions_witness :
    (0 : ℚ) ≤ 3/2 ∧
    ((MasterStrip.mk 10 4 3).tile_src_rect_h (3/2) 2 false =
      ((⌊(3/2 : ℚ)⌋ + (2 : ℤ) * ((4 : ℕ) : ℤ)) % ((10 : ℕ) : ℤ), 0, 4, 3) ∧
     (MasterStrip.mk 10 4 3).tile_src_rect_h (3/2) 2 true =
      ((-(⌊(3/2 : ℚ)⌋ + (2 : ℤ) * ((4 : ℕ) : ℤ))) % ((10 : ℕ) : ℤ), 0, 4, 3) ∧
     (MasterStrip.mk 10 4 3).tile_src_rect_v (3/2) 2 false =
      (0, (⌊(3/2 : ℚ)⌋ + (2 : ℤ) * ((3 : ℕ) : ℤ)) % (2 * ((10 : ℕ) : ℤ)), 4, 3) ∧
     (MasterStrip.mk 10 4 3).tile_src_rect_v (3/2) 2 true =
      (0, (-(⌊(3/2 : ℚ)⌋ + (2 : ℤ) * ((3 : ℕ) : ℤ))) % (2 * ((10 : ℕ) : ℤ)), 4, 3)) :=
  ⟨by norm_num, tile_sampling_positions (MasterStrip.mk 10 4 3) (3/2) 2 (by norm_num)⟩

/-- Model of `in_range` (src/main.py lines 275-278).  `datetime.time` values
compare lexicographically by components, which is order-isomorphic to minutes
(or seconds) since midnight, so times are modelled as `ℕ`. -/
def in_range (t start stop : ℕ) : Bool :=
  if start ≤ stop then decide (start ≤ t ∧ t ≤ stop)
  else decide (t ≥ start ∨ t ≤ stop)

/-- C7 — time-window membership: inclusive-both-ends when `start ≤ end`,
midnight-spanning disjunction when `start > end`; in particular
`in_range(23:30, 22:00, 02:00)` is true and `in_range(12:00, 22:00, 02:00)`
is false (times in minutes since midnight). -/
theorem in_range_correct (t s e : ℕ) :
    (s ≤ e → (in_range t s e = true ↔ s ≤ t ∧ t ≤ e)) ∧
    (e < s → (in_range t s e = true ↔ t ≥ s ∨ t ≤ e)) ∧
    in_range 1410 1320 120 = true ∧
    in_range 720 1320 120 = false := by
  refine ⟨?_, ?_, by decide, by decide⟩
  · intro h
    simp [in_range, h]
  · intro h
    simp [in_range, Nat.not_le.mpr h, not_le.mpr h]

/-- Witness for C7 at `t = 3`, `start = 1`, `end = 5` (first conjunct) --
the two concrete conjuncts are hypothesis-free. -/
theorem in_range_correct_witness :
    (1 : ℕ) ≤ 5 ∧ (in_range 3 1 5 = true ↔ 1 ≤ 3 ∧ 3 ≤ 5) :=
  ⟨by decide, (in_range_correct 3 1 5).1 (by decide)⟩

/-- Model of a scheduler entry (src/main.py: dict rows built by
`read_scheduler_from_table`, consumed by `Scheduler.pick_content_name` and
`Main.choose_target_content`).  `weekdays` is the list behind
`e.get("weekdays") or []` (absent ≡ empty), `date` is the optional ISO date
string, `start`/`end_` the window bounds in minutes, `content` the referenced
content name. -/
structure SchedEntry where
  type : String
  weekdays : List ℕ
  date : Option String
  start : ℕ
  end_ : ℕ
  content : String
  transition : String
  fade_ms : ℕ
deriving DecidableEq, Repr

/-- The point in time handed to the scheduler: `now.date().isoformat()`,
`now.time()` (minutes) and `now.weekday()`. -/
structure NowInfo where
  dateIso : String
  t : ℕ
  weekday : ℕ
deriving DecidableEq, Repr

/-- First-pass test of `pick_content_name`: a `date`-kind entry whose literal
date is today and whose window contains the current time. -/
def dateMatches (now : NowInfo) (e : SchedEntry) : Bool :=
  e.type == "date" && e.date == some now.dateIso && in_range now.t e.start e.end_

/-- Second-pass test of `pick_content_name`: a `daily`-kind entry whose
weekday set contains today's weekday and whose window contains the time. -/
def dailyMatches (now : NowInfo) (e : SchedEntry) : Bool :=
  e.type == "daily" && e.weekdays.contains now.weekday && in_range now.t e.start e.end_

/-- Model of `Scheduler.pick_content_name` (src/main.py lines 285-297): one
pass over the entries looking for a matching `date` entry, then a second pass
looking for a matching `daily` entry, first match wins in each pass. -/
def pick_content_name (entries : List SchedEntry) (now : NowInfo) : Option String :=
  match entries.find? (dateMatches now) with
  | some e => some e.content
  | none =>
    match entries.find? (dailyMatches now) with
    | some e => some e.content
    | none => none

/-- Model of `Main.choose_target_content` (src/main.py lines 1093-1103): the
same two passes, additionally returning the matching entry. -/
def choose_target_content (entries : List SchedEntry) (now : NowInfo) :
    Option (String × SchedEntry) :=
  match entries.find? (dateMatches now) with
  | some e => some (e.content, e)
  | none =>
    match entries.find? (dailyMatches now) with
    | some e => some (e.content, e)
    | none => none

/-- C6 — scheduler priority: the first matching `date` entry (in list order)
wins; `daily` entries are only consulted when no `date` entry matches; `none`
is returned exactly when neither pass matches; hence a matching `date` entry
outranks any matching `daily` entry regardless of list positions; and
`Main.choose_target_content` agrees with `Scheduler.pick_content_name`. -/
theorem pick_content_name_priority (entries : List SchedEntry) (now : NowInfo) :
    (∀ e, entries.find? (dateMatches now) = some e →
      pick_content_name entries now = some e.content) ∧
    (entries.find? (dateMatches now) = none →
      ∀ e, entries.find? (dailyMatches now) = some e →
        pick_content_name entries now = some e.content) ∧
    (pick_content_name entries now = none ↔
      (∀ e ∈ entries, ¬ dateMatches now e) ∧ (∀ e ∈ entries, ¬ dailyMatches now e)) ∧
    ((∃ e ∈ entries, dateMatches now e) →
      ∃ e ∈ entries, dateMatches now e ∧ pick_content_name entries now = some e.content) ∧
    (choose_target_content entries now).map Prod.fst = pick_content_name entries now := by
  refine ⟨?_, ?_, ?_, ?_, ?_⟩
  · intro e he
    simp [pick_content_name, he]
  · intro hd e he
    simp [pick_content_name, hd, he]
  · constructor
    · intro h
      rcases hd : entries.find? (dateMatches now) with _ | e
      · rcases hl : entries.find? (dailyMatches now) with _ | e
        · exact ⟨by simpa using List.find?_eq_none.mp hd,
            by simpa using List.find?_eq_none.mp hl⟩
        · simp [pick_content_name, hd, hl] at h
      · simp [pick_content_name, hd] at h
    · rintro ⟨h1, h2⟩
      have hd : entries.find? (dateMatches now) = none :=
        List.find?_eq_none.mpr (by simpa using h1)
      have hl : entries.find? (dailyMatches now) = none :=
        List.find?_eq_none.mpr (by simpa using h2)
      simp [pick_content_name, hd, hl]
  · rintro ⟨e, he, hme⟩
    rcases hd : entries.find? (dateMatches now) with _ | e'
    · exact absurd hme (by simpa using List.find?_eq_none.mp hd e he)
    · exact ⟨e', List.mem_of_find?_eq_some hd, List.find?_some hd,
        by simp [pick_content_name, hd]⟩
  · rcases hd : entries.find? (dateMatches now) with _ | e
    · rcases hl : entries.find? (dailyMatches now) with _ | e
      · simp [pick_content_name, choose_target_content, hd, hl]
      · simp [pick_content_name, choose_target_content, hd, hl]
    · simp [pick_content_name, choose_target_content, hd]

/-- Witness for C6: a matching `daily` entry listed BEFORE a matching `date`
entry — the `date` entry's content wins. -/
theorem pick_content_name_priority_witness :
    (∃ e ∈ [SchedEntry.mk "daily" [0] none 0 1439 "dailyC" "cut" 800,
            SchedEntry.mk "date" [] (some "2026-10-12") 0 1439 "dateC" "cut" 800],
        dateMatches (NowInfo.mk "2026-10-12" 600 0) e) ∧
    pick_content_name
        [SchedEntry.mk "daily" [0] none 0 1439 "dailyC" "cut" 800,
         SchedEntry.mk "date" [] (some "2026-10-12") 0 1439 "dateC" "cut" 800]
        (NowInfo.mk "2026-10-12" 600 0) = some "dateC" := by
  constructor
  · exact ⟨SchedEntry.mk "date" [] (some "2026-10-12") 0 1439 "dateC" "cut" 800,
      by decide, by decide⟩
  · have h := (pick_content_name_priority
      [SchedEntry.mk "daily" [0] none 0 1439 "dailyC" "cut" 800,
       SchedEntry.mk "date" [] (some "2026-10-12") 0 1439 "dateC" "cut" 800]
      (NowInfo.mk "2026-10-12" 600 0)).1
      (SchedEntry.mk "date" [] (some "2026-10-12") 0 1439 "dateC" "cut" 800) (by decide)
    exact h

/-- One `p.drawImage(...)` call emitted by `_draw_wrapped_h`/`_draw_wrapped_v`
(src/main.py lines 986-1010), recorded along the scrolled axis: `src` is the
source start coordinate on that axis, `dst` the destination start coordinate,
`len` the extent of the blit (Python's `take`). -/
structure Seg where
  src : ℕ
  dst : ℤ
  len : ℕ
deriving DecidableEq, Repr

/-- The `while remaining > 0` loop shared by `_draw_wrapped_h` and
`_draw_wrapped_v`, embedded with explicit fuel; every iteration runs
`take = min(remaining, W - x)`, emits one blit and continues at `x = 0`.
The specification theorem shows fuel `remaining` always suffices (the loop
terminates after consuming the whole destination extent). -/
def wrapLoop : ℕ → ℕ → ℕ → ℕ → ℤ → List Seg
  | 0, _, _, _, _ => []
  | fuel + 1, W, x, remaining, dx =>
    if remaining = 0 then []
    else
      let take := min remaining (W - x)
      Seg.mk x dx take :: wrapLoop fuel W 0 (remaining - take) (dx + take)

/-- Model of `Main._draw_wrapped_h` (src/main.py lines 986-997): `W` is the
source buffer width (`strip.double_h`, i.e. `2*text_w` when called), the loop
starts at `x = start_x % W` and covers `dst_w` destination columns from
`dst_x`. -/
def _draw_wrapped_h (W : ℕ) (dst_x : ℤ) (dst_w : ℕ) (start_x : ℤ) : List Seg :=
  wrapLoop dst_w W (start_x % (W : ℤ)).toNat dst_w dst_x

/-- Model of `Main._draw_wrapped_v` (src/main.py lines 999-1010): identical
loop along the vertical axis, `H` the source buffer height
(`strip.double_v`, i.e. `2*text_w` when called). -/
def _draw_wrapped_v (H : ℕ) (dst_y : ℤ) (dst_h : ℕ) (start_y : ℤ) : List Seg :=
  wrapLoop dst_h H (start_y % (H : ℤ)).toNat dst_h dst_y

/-- The destination segments are contiguous starting at `d`: each segment
begins exactly where the previous one ended (no gaps, no overlaps). -/
def segsChainFrom : ℤ → List Seg → Prop
  | _, [] => True
  | d, s :: rest => s.dst = d ∧ segsChainFrom (d + (s.len : ℤ)) rest

/-- Total destination extent covered by the emitted blits. -/
def segsTotalLen (l : List Seg) : ℕ := (l.map Seg.len).sum

/-- Invariant of the wrapped-blit loop: with a positive buffer extent `W`, a
start position inside the buffer and enough fuel, the emitted blits cover
exactly `remaining`, are contiguous from `dx`, stay inside the buffer and are
all nonempty. -/
theorem wrapLoop_spec (fuel : ℕ) : ∀ W x remaining : ℕ, ∀ dx : ℤ,
    0 < W → x < W → remaining ≤ fuel →
    segsTotalLen (wrapLoop fuel W x remaining dx) = remaining ∧
    segsChainFrom dx (wrapLoop fuel W x remaining dx) ∧
    ∀ s ∈ wrapLoop fuel W x remaining dx, s.src + s.len ≤ W ∧ 0 < s.len := by
  induction fuel with
  | zero =>
    intro W x remaining dx hW hx hr
    have h0 : remaining = 0 := Nat.le_zero.mp hr
    subst h0
    simp [wrapLoop, segsTotalLen, segsChainFrom]
  | succ fuel ih =>
    intro W x remaining dx hW hx hr
    by_cases h0 : remaining = 0
    · subst h0
      simp [wrapLoop, segsTotalLen, segsChainFrom]
    · have hrpos : 0 < remaining := Nat.pos_of_ne_zero h0
      set take := min remaining (W - x) with htdef
      have htpos : 0 < take := by omega
      have htle : take ≤ remaining := by omega
      have hstep : wrapLoop (fuel + 1) W x remaining dx
          = Seg.mk x dx take ::
            wrapLoop fuel W 0 (remaining - take) (dx + ((take : ℕ) : ℤ)) := by
        simp only [wrapLoop, if_neg h0]
      obtain ⟨ihlen, ihchain, ihmem⟩ :=
        ih W 0 (remaining - take) (dx + ((take : ℕ) : ℤ)) hW hW (by omega)
      refine ⟨?_, ?_, ?_⟩
      · rw [hstep]
        have h1 : (List.map Seg.len (wrapLoop fuel W 0 (remaining - take)
            (dx + ((take : ℕ) : ℤ)))).sum = remaining - take := ihlen
        show take + (List.map Seg.len (wrapLoop fuel W 0 (remaining - take)
            (dx + ((take : ℕ) : ℤ)))).sum = remaining
        omega
      · rw [hstep]
        exact ⟨rfl, ihchain⟩
      · intro s hs
        rw [hstep] at hs
        rcases List.mem_cons.mp hs with rfl | hs'
        · exact ⟨(by omega : x + take ≤ W), htpos⟩
        · exact ihmem s hs'

/-- C4 — wrapped blit coverage and bounds: for every buffer extent `≥ 1`,
destination extent `≥ 1`, and any integer start position, `_draw_wrapped_h`
(resp. `_draw_wrapped_v`) terminates and emits nonempty blit segments that
lie within the source buffer and exactly partition the destination extent —
contiguous from the destination origin, total length `dst_w` (resp. `dst_h`),
no gaps and no overlaps — including when the window crosses the end of the
doubled buffer. -/
theorem draw_wrapped_partitions (W dst_w H dst_h : ℕ) (dst_x start_x dst_y start_y : ℤ)
    (hW : 1 ≤ W) (hw : 1 ≤ dst_w) (hH : 1 ≤ H) (hh : 1 ≤ dst_h) :
    (segsTotalLen (_draw_wrapped_h W dst_x dst_w start_x) = dst_w ∧
     segsChainFrom dst_x (_draw_wrapped_h W dst_x dst_w start_x) ∧
     ∀ s ∈ _draw_wrapped_h W dst_x dst_w start_x, s.src + s.len ≤ W ∧ 0 < s.len) ∧
    (segsTotalLen (_draw_wrapped_v H dst_y dst_h start_y) = dst_h ∧
     segsChainFrom dst_y (_draw_wrapped_v H dst_y dst_h start_y) ∧
     ∀ s ∈ _draw_wrapped_v H dst_y dst_h start_y, s.src + s.len ≤ H ∧ 0 < s.len) := by
  constructor
  · apply wrapLoop_spec dst_w W _ dst_w dst_x (by omega) _ le_rfl
    have h1 : start_x % (W : ℤ) < (W : ℤ) :=
      Int.emod_lt_of_pos start_x (by exact_mod_cast hW)
    have h2 : 0 ≤ start_x % (W : ℤ) :=
      Int.emod_nonneg start_x (by positivity)
    omega
  · apply wrapLoop_spec dst_h H _ dst_h dst_y (by omega) _ le_rfl
    have h1 : start_y % (H : ℤ) < (H : ℤ) :=
      Int.emod_lt_of_pos start_y (by exact_mod_cast hH)
    have h2 : 0 ≤ start_y % (H : ℤ) :=
      Int.emod_nonneg start_y (by positivity)
    omega

/-- Witness for C4: buffer width 20, a 7-wide window starting at 17 (crossing
the buffer end), and the vertical analogue. -/
theorem draw_wrapped_partitions_witness :
    (1 : ℕ) ≤ 20 ∧ (1 : ℕ) ≤ 7 ∧
    ((segsTotalLen (_draw_wrapped_h 20 5 7 17) = 7 ∧
      segsChainFrom 5 (_draw_wrapped_h 20 5 7 17) ∧
      ∀ s ∈ _draw_wrapped_h 20 5 7 17, s.src + s.len ≤ 20 ∧ 0 < s.len) ∧
     (segsTotalLen (_draw_wrapped_v 20 3 7 17) = 7 ∧
      segsChainFrom 3 (_draw_wrapped_v 20 3 7 17) ∧
      ∀ s ∈ _draw_wrapped_v 20 3 7 17, s.src + s.len ≤ 20 ∧ 0 < s.len)) :=
  ⟨by decide, by decide,
    draw_wrapped_partitions 20 7 20 7 5 17 3 17 (by decide) (by decide) (by decide) (by decide)⟩

/-- A destination tile `(x, y, w, h, dir)` as produced by
`_gen_rects_new_port` (src/main.py lines 76-143). -/
abbrev Rect := ℤ × ℤ × ℕ × ℕ × String

/-- A mapping block `{"dir": ..., "count": ...}`; `dir` is absent (`none`)
when the key is missing from the dict, `count` is the Python int
`int(blk.get("count", 0))`. -/
structure Block where
  dir : Option String
  count : ℤ
deriving DecidableEq, Repr

/-- A mapping port in the new format: start coordinate, orientation mode
string, ordered block list (`path_mode` is read but unused by the
geometry, and the id only matters for concatenation). -/
structure Port where
  start_x : ℤ
  start_y : ℤ
  mode : String
  blocks : List Block
deriving DecidableEq, Repr

/-- The block loop of `_gen_rects_new_port` (src/main.py lines 100-141),
with the mutable cursor `(cur_x, cur_y)` made explicit.  Mirrors the source:
missing `dir` defaults to `bottom_up` (vertical) / `left_right` (otherwise);
`count <= 0` only advances the cursor; each dir branch stacks `count` tiles
and advances the cross-axis cursor; the trailing `else` branches replicate
the source's silent fallbacks. -/
def genBlocksAux (mode : String) (module_w module_h : ℕ) :
    List Block → ℤ → ℤ → List Rect
  | [], _, _ => []
  | blk :: rest, cur_x, cur_y =>
    let dirv := blk.dir.getD (if mode = "vertical" then "bottom_up" else "left_right")
    if blk.count ≤ 0 then
      (if mode = "vertical" then
        genBlocksAux mode module_w module_h rest (cur_x + module_w) cur_y
      else
        genBlocksAux mode module_w module_h rest cur_x (cur_y + module_h))
    else
      if mode = "vertical" then
        (if dirv = "bottom_up" then
          (List.range blk.count.toNat).map
            (fun (k : ℕ) => (cur_x, cur_y - (k : ℤ) * module_h, module_w, module_h, "bottom_up"))
        else if dirv = "top_down" then
          (List.range blk.count.toNat).map
            (fun (k : ℕ) => (cur_x, cur_y + (k : ℤ) * module_h, module_w, module_h, "top_down"))
        else
          (List.range blk.count.toNat).map
            (fun (k : ℕ) => (cur_x, cur_y + (k : ℤ) * module_h, module_w, module_h, "top_down")))
        ++ genBlocksAux mode module_w module_h rest (cur_x + module_w) cur_y
      else
        (if dirv = "left_right" then
          (List.range blk.count.toNat).map
            (fun (k : ℕ) => (cur_x + (k : ℤ) * module_w, cur_y, module_w, module_h, "left_right"))
        else if dirv = "right_left" then
          (List.range blk.count.toNat).map
            (fun (k : ℕ) => (cur_x - (k : ℤ) * module_w, cur_y, module_w, module_h, "right_left"))
        else
          (List.range blk.count.toNat).map
            (fun (k : ℕ) => (cur_x + (k : ℤ) * module_w, cur_y, module_w, module_h, "left_right")))
        ++ genBlocksAux mode module_w module_h rest cur_x (cur_y + module_h)

/-- Model of `_gen_rects_new_port` (src/main.py lines 76-143). -/
def _gen_rects_new_port (port : Port) (module_w module_h : ℕ) : List Rect :=
  genBlocksAux port.mode module_w module_h port.blocks port.start_x port.start_y

/-- Every block contributes exactly `max 0 count` tiles, whatever the mode,
directions and module dimensions. -/
theorem genBlocksAux_length (mode : String) (mw mh : ℕ) (blocks : List Block) :
    ∀ cx cy : ℤ, (genBlocksAux mode mw mh blocks cx cy).length
      = (blocks.map (fun b => b.count.toNat)).sum := by
  induction blocks with
  | nil => intro cx cy; simp [genBlocksAux]
  | cons b rest ih =>
    intro cx cy
    simp only [genBlocksAux, List.map_cons, List.sum_cons]
    by_cases hc : b.count ≤ 0
    · have h0 : b.count.toNat = 0 := by omega
      rw [if_pos hc]
      split <;> simp [ih, h0]
    · rw [if_neg hc]
      split <;> split
      all_goals try split
      all_goals simp only [List.length_append, List.length_map, List.length_range, ih]

/-- C8 counterexample — with zero module dimensions the generator still
produces a (degenerate) tile: nothing is rejected. -/
theorem zero_module_rects_counterexample :
    _gen_rects_new_port (Port.mk 0 0 "vertical" [Block.mk (some "bottom_up") 1]) 0 0
        = [(0, 0, 0, 0, "bottom_up")] ∧
    _gen_rects_new_port (Port.mk 0 0 "vertical" [Block.mk (some "bottom_up") 1]) 0 0 ≠ [] := by
  constructor
  · rfl
  · decide

/-- C8 amended — tile generation performs no module-dimension validation:
for every port and any module dimensions (zero included) it succeeds and
emits exactly `max 0 count` tiles per block. -/
theorem gen_rects_no_dimension_validation (port : Port) (module_w module_h : ℕ) :
    (_gen_rects_new_port port module_w module_h).length
      = (port.blocks.map (fun b => b.count.toNat)).sum :=
  genBlocksAux_length port.mode module_w module_h port.blocks port.start_x port.start_y

/-- The four scroll directions as a closed type, used to state the claimed
geometry (the source stores plain strings). -/
inductive Dir
  | bottom_up
  | top_down
  | left_right
  | right_left
deriving DecidableEq, Repr

/-- The string tag the source uses for each direction. -/
def Dir.tag : Dir → String
  | .bottom_up => "bottom_up"
  | .top_down => "top_down"
  | .left_right => "left_right"
  | .right_left => "right_left"

/-- Encode a claimed block `(dir, count)` as the source's block dict. -/
def dirBlock (p : Dir × ℤ) : Block := Block.mk (some p.1.tag) p.2

/-- Claimed geometry of a vertical-mode port (C5's words): each block is one
column, tile `k` of a `bottom_up` block sits at `(cur_x, start_y − k·module_h)`
and of a `top_down` block at `(cur_x, start_y + k·module_h)`, each
`module_w × module_h` and tagged with the block's direction; the x cursor
advances by `module_w` after every block, including `count ≤ 0` blocks which
produce no tiles.  (Horizontal directions are not covered by C5's vertical
case; they map to `[]` here and are excluded by hypothesis.) -/
def vertPortSpec (module_w module_h : ℕ) : List (Dir × ℤ) → ℤ → ℤ → List Rect
  | [], _, _ => []
  | (d, n) :: rest, cur_x, start_y =>
    (if n ≤ 0 then ([] : List Rect)
     else
       match d with
       | Dir.bottom_up =>
         (List.range n.toNat).map
           (fun (k : ℕ) => (cur_x, start_y - (k : ℤ) * module_h, module_w, module_h, "bottom_up"))
       | Dir.top_down =>
         (List.range n.toNat).map
           (fun (k : ℕ) => (cur_x, start_y + (k : ℤ) * module_h, module_w, module_h, "top_down"))
       | _ => [])
    ++ vertPortSpec module_w module_h rest (cur_x + module_w) start_y

/-- Claimed geometry of a horizontal-mode port (C5's words, the transpose):
blocks are rows, `left_right` stacks tiles at `(cur_x + k·module_w, start_y)`,
`right_left` at `(cur_x − k·module_w, start_y)`, and the y cursor advances by
`module_h` after every block. -/
def horizPortSpec (module_w module_h : ℕ) : List (Dir × ℤ) → ℤ → ℤ → List Rect
  | [], _, _ => []
  | (d, n) :: rest, cur_x, cur_y =>
    (if n ≤ 0 then ([] : List Rect)
     else
       match d with
       | Dir.left_right =>
         (List.range n.toNat).map
           (fun (k : ℕ) => (cur_x + (k : ℤ) * module_w, cur_y, module_w, module_h, "left_right"))
       | Dir.right_left =>
         (List.range n.toNat).map
           (fun (k : ℕ) => (cur_x - (k : ℤ) * module_w, cur_y, module_w, module_h, "right_left"))
       | _ => [])
    ++ horizPortSpec module_w module_h rest cur_x (cur_y + module_h)

theorem genBlocksAux_vertical (mw mh : ℕ) (sblocks : List (Dir × ℤ)) :
    ∀ cx cy : ℤ, (∀ p ∈ sblocks, p.1 = Dir.bottom_up ∨ p.1 = Dir.top_down) →
    genBlocksAux "vertical" mw mh (sblocks.map dirBlock) cx cy
      = vertPortSpec mw mh sblocks cx cy := by
  induction sblocks with
  | nil => intro cx cy _; rfl
  | cons p rest ih =>
    intro cx cy hdirs
    obtain ⟨d, n⟩ := p
    have hd : d = Dir.bottom_up ∨ d = Dir.top_down := hdirs (d, n) (List.mem_cons_self _ _)
    have hrest : ∀ p ∈ rest, p.1 = Dir.bottom_up ∨ p.1 = Dir.top_down :=
      fun p hp => hdirs p (List.mem_cons_of_mem _ hp)
    by_cases hn : n ≤ 0
    · rcases hd with rfl | rfl <;>
        simp [genBlocksAux, vertPortSpec, dirBlock, Dir.tag, hn, ih _ _ hrest]
    · rcases hd with rfl | rfl <;>
        simp [genBlocksAux, vertPortSpec, dirBlock, Dir.tag, hn, ih _ _ hrest]

theorem genBlocksAux_horizontal (mw mh : ℕ) (sblocks : List (Dir × ℤ)) :
    ∀ cx cy : ℤ, (∀ p ∈ sblocks, p.1 = Dir.left_right ∨ p.1 = Dir.right_left) →
    genBlocksAux "horizontal" mw mh (sblocks.map dirBlock) cx cy
      = horizPortSpec mw mh sblocks cx cy := by
  induction sblocks with
  | nil => intro cx cy _; rfl
  | cons p rest ih =>
    intro cx cy hdirs
    obtain ⟨d, n⟩ := p
    have hd : d = Dir.left_right ∨ d = Dir.right_left := hdirs (d, n) (List.mem_cons_self _ _)
    have hrest : ∀ p ∈ rest, p.1 = Dir.left_right ∨ p.1 = Dir.right_left :=
      fun p hp => hdirs p (List.mem_cons_of_mem _ hp)
    by_cases hn : n ≤ 0
    · rcases hd with rfl | rfl <;>
        simp [genBlocksAux, horizPortSpec, dirBlock, Dir.tag, hn, ih _ _ hrest]
    · rcases hd with rfl | rfl <;>
        simp [genBlocksAux, horizPortSpec, dirBlock, Dir.tag, hn, ih _ _ hrest]

/-- C5 — tile expansion geometry: a vertical-mode port whose blocks carry
vertical direction tags expands exactly to the claimed column layout
(`bottom_up` stacking upward, `top_down` downward, x advancing by `module_w`
after every block including `count ≤ 0` blocks), and a horizontal-mode port
with horizontal tags expands to the transposed row layout. -/
theorem gen_rects_geometry (mw mh : ℕ) (sx sy : ℤ) (sblocks : List (Dir × ℤ)) :
    ((∀ p ∈ sblocks, p.1 = Dir.bottom_up ∨ p.1 = Dir.top_down) →
      _gen_rects_new_port (Port.mk sx sy "vertical" (sblocks.map dirBlock)) mw mh
        = vertPortSpec mw mh sblocks sx sy) ∧
    ((∀ p ∈ sblocks, p.1 = Dir.left_right ∨ p.1 = Dir.right_left) →
      _gen_rects_new_port (Port.mk sx sy "horizontal" (sblocks.map dirBlock)) mw mh
        = horizPortSpec mw mh sblocks sx sy) :=
  ⟨genBlocksAux_vertical mw mh sblocks sx sy,
   genBlocksAux_horizontal mw mh sblocks sx sy⟩

/-- Witness for C5: a concrete vertical port with a `bottom_up` block of 2, a
zero-count block (cursor-only) and a `top_down` block of 1, module 10×20,
plus the horizontal transpose. -/
theorem gen_rects_geometry_witness :
    ((∀ p ∈ [(Dir.bottom_up, (2 : ℤ)), (Dir.top_down, 0), (Dir.top_down, 1)],
        p.1 = Dir.bottom_up ∨ p.1 = Dir.top_down) ∧
      _gen_rects_new_port
          (Port.mk 3 100 "vertical"
            ([(Dir.bottom_up, (2 : ℤ)), (Dir.top_down, 0), (Dir.top_down, 1)].map dirBlock)) 10 20
        = vertPortSpec 10 20 [(Dir.bottom_up, 2), (Dir.top_down, 0), (Dir.top_down, 1)] 3 100) ∧
    ((∀ p ∈ [(Dir.left_right, (2 : ℤ)), (Dir.right_left, 1)],
        p.1 = Dir.left_right ∨ p.1 = Dir.right_left) ∧
      _gen_rects_new_port
          (Port.mk 3 100 "horizontal"
            ([(Dir.left_right, (2 : ℤ)), (Dir.right_left, 1)].map dirBlock)) 10 20
        = horizPortSpec 10 20 [(Dir.left_right, 2), (Dir.right_left, 1)] 3 100) :=
  ⟨⟨by decide,
    (gen_rects_geometry 10 20 3 100 [(Dir.bottom_up, 2), (Dir.top_down, 0), (Dir.top_down, 1)]).1
      (by decide)⟩,
   ⟨by decide,
    (gen_rects_geometry 10 20 3 100 [(Dir.left_right, 2), (Dir.right_left, 1)]).2
      (by decide)⟩⟩

/-- C10's claimed normalization: in vertical mode a missing dir defaults to
`bottom_up` and any tag other than `bottom_up`/`top_down` behaves as
`top_down`; in any other mode a missing dir defaults to `left_right` and any
tag other than `left_right`/`right_left` behaves as `left_right`. -/
def normDir (mode : String) (d : Option String) : String :=
  if mode = "vertical" then
    match d with
    | none => "bottom_up"
    | some s => if s = "bottom_up" ∨ s = "top_down" then s else "top_down"
  else
    match d with
    | none => "left_right"
    | some s => if s = "left_right" ∨ s = "right_left" then s else "left_right"

/-- Normalizing the direction tags of a vertical-mode block list does not
change the generated tiles. -/
theorem genBlocksAux_norm_vertical (mw mh : ℕ) (blocks : List Block) :
    ∀ cx cy : ℤ, genBlocksAux "vertical" mw mh blocks cx cy
      = genBlocksAux "vertical" mw mh
          (blocks.map (fun b => Block.mk (some (normDir "vertical" b.dir)) b.count)) cx cy := by
  induction blocks with
  | nil => intro cx cy; rfl
  | cons b rest ih =>
    intro cx cy
    obtain ⟨d, n⟩ := b
    by_cases hn : n ≤ 0
    · rcases d with _ | s <;>
        simp [genBlocksAux, normDir, hn, ih]
    · rcases d with _ | s
      · simp [genBlocksAux, normDir, hn, ih]
      · by_cases h1 : s = "bottom_up"
        · simp [genBlocksAux, normDir, hn, h1, ih]
        · by_cases h2 : s = "top_down" <;>
            simp [genBlocksAux, normDir, hn, h1, h2, ih]

theorem genBlocksAux_norm_horizontal (mw mh : ℕ) (blocks : List Block) :
    ∀ cx cy : ℤ, genBlocksAux "horizontal" mw mh blocks cx cy
      = genBlocksAux "horizontal" mw mh
          (blocks.map (fun b => Block.mk (some (normDir "horizontal" b.dir)) b.count)) cx cy := by
  induction blocks with
  | nil => intro cx cy; rfl
  | cons b rest ih =>
    intro cx cy
    obtain ⟨d, n⟩ := b
    by_cases hn : n ≤ 0
    · rcases d with _ | s <;>
        simp [genBlocksAux, normDir, hn, ih]
    · rcases d with _ | s
      · simp [genBlocksAux, normDir, hn, ih]
      · by_cases h1 : s = "left_right"
        · simp [genBlocksAux, normDir, hn, h1, ih]
        · by_cases h2 : s = "right_left" <;>
            simp [genBlocksAux, normDir, hn, h1, h2, ih]

/-- C10 — silent direction-tag fallback: replacing every block's dir by its
claimed normalization leaves the generated tiles unchanged — so a mismatched
tag silently falls back (`top_down` layout+tag in vertical mode, `left_right`
in horizontal mode), a missing dir defaults (`bottom_up` resp. `left_right`),
and no direction tag is ever rejected. -/
theorem gen_rects_dir_fallback (mw mh : ℕ) (sx sy : ℤ) (blocks : List Block) :
    _gen_rects_new_port (Port.mk sx sy "vertical" blocks) mw mh
      = _gen_rects_new_port
          (Port.mk sx sy "vertical"
            (blocks.map (fun b => Block.mk (some (normDir "vertical" b.dir)) b.count))) mw mh ∧
    _gen_rects_new_port (Port.mk sx sy "horizontal" blocks) mw mh
      = _gen_rects_new_port
          (Port.mk sx sy "horizontal"
            (blocks.map (fun b => Block.mk (some (normDir "horizontal" b.dir)) b.count))) mw mh :=
  ⟨genBlocksAux_norm_vertical mw mh blocks sx sy,
   genBlocksAux_norm_horizontal mw mh blocks sx sy⟩

/-- Model of `ContentItem` (src/main.py, dataclass ContentItem) minus the
`name` field, which serves as the registry key. -/
structure ContentItem where
  text : String
  font_family : String
  font_pt : ℕ
  text_rgb : ℕ × ℕ × ℕ
  bg_rgb : ℕ × ℕ × ℕ
deriving DecidableEq, Repr

/-- The slice of `Main`'s mutable state touched by content deletion and the
crossfade machinery (src/main.py, class Main).  `contents` is the registry
dict modelled as an insertion-ordered association list with unique keys. -/
structure TickerState where
  contents : List (String × ContentItem)
  live_source : String
  live_content_name : Option String
  current_content_name : String
  strip_curr : Option MasterStrip
  next_content_name : Option String
  crossfade_active : Bool
  crossfade_start : Option ℤ
  strip_next : Option MasterStrip
deriving DecidableEq, Repr

/-- Dict lookup `self.contents[name]` / `name in self.contents`. -/
def lookupContent (contents : List (String × ContentItem)) (name : String) :
    Option ContentItem :=
  (contents.find? (fun p => p.1 == name)).map Prod.snd

/-- The `MasterStrip` constructor + `rebuild` (src/main.py lines 200-249)
as far as the arithmetic state is concerned: `text_w` is
`max(8, fm.horizontalAdvance(text))`, where the font-metrics oracle
`adv text font_family font_pt` stands for Qt's `QFontMetrics`. -/
def buildMasterStrip (adv : String → String → ℕ → ℕ) (c : ContentItem)
    (module_w module_h : ℕ) : MasterStrip :=
  MasterStrip.mk (max 8 (adv c.text c.font_family c.font_pt)) module_w module_h

/-- Model of `Main.make_strip` (src/main.py lines 751-756): `None` for an
empty or unknown name, otherwise a strip built from the content's fields. -/
def make_strip (adv : String → String → ℕ → ℕ) (module_w module_h : ℕ)
    (contents : List (String × ContentItem)) (name : String) : Option MasterStrip :=
  if name = "" then none
  else
    match lookupContent contents name with
    | none => none
    | some c => some (buildMasterStrip adv c module_w module_h)

/-- Model of `Main.del_content` (src/main.py lines 735-749), deleting the
content called `name`: pop it from the registry; if it was the manual live
selection, revert to scheduler mode; if it was the current content, fall back
to the first remaining registry key (`next(iter(...), None) or ""`) and
rebuild the current strip.  GUI-only effects (list widgets, dropdown refresh)
have no counterpart in the core state. -/
def del_content (adv : String → String → ℕ → ℕ) (module_w module_h : ℕ)
    (name : String) (st : TickerState) : TickerState :=
  let contents1 := st.contents.eraseP (fun p => p.1 == name)
  let st1 : TickerState := { st with contents := contents1 }
  let st2 : TickerState :=
    if st1.live_source = "manual" ∧ st1.live_content_name = some name then
      { st1 with live_source := "scheduler", live_content_name := none }
    else st1
  if st2.current_content_name = name then
    let newName := ((contents1.head?).map Prod.fst).getD ""
    { st2 with
      current_content_name := newName,
      strip_curr := make_strip adv module_w module_h contents1 newName }
  else st2

/-- A concrete mid-crossfade state: contents A (current) and B (next), fade
running. -/
def fadingState : TickerState :=
  TickerState.mk
    [("A", ContentItem.mk "ticker A" "Arial" 72 (255, 255, 255) (0, 0, 0)),
     ("B", ContentItem.mk "ticker B" "Arial" 72 (0, 255, 0) (0, 0, 0))]
    "scheduler" none "A" (some (MasterStrip.mk 92 10 20)) (some "B") true (some 12345)
    (some (MasterStrip.mk 92 10 20))

/-- C9 counterexample — deleting the active content "A" of `fadingState`
leaves the fade-active flag, the fade-start timestamp and the next strip all
UNCHANGED: the deletion does not clear the fade state (it falls back to
content "B" and rebuilds the current strip, but the crossfade keeps
running). -/
theorem del_content_fade_counterexample :
    (del_content (fun _ _ _ => 92) 10 20 "A" fadingState).crossfade_active = true ∧
    (del_content (fun _ _ _ => 92) 10 20 "A" fadingState).crossfade_start = some 12345 ∧
    (del_content (fun _ _ _ => 92) 10 20 "A" fadingState).strip_next
      = some (MasterStrip.mk 92 10 20) ∧
    (del_content (fun _ _ _ => 92) 10 20 "A" fadingState).current_content_name = "B" := by
  refine ⟨rfl, rfl, rfl, rfl⟩

/-- C9 amended — deleting the currently active content (also mid-crossfade)
does not crash: the registry entry is removed, the current content falls back
to the first remaining content (or `""`, rendered as a background-only frame,
if none remain — then the current strip is `none`), and the current strip is
rebuilt for the fallback; the fade state (fade-active flag, fade-start
timestamp, next name and next strip) is left untouched by the deletion. -/
theorem del_content_active_fallback (adv : String → String → ℕ → ℕ)
    (module_w module_h : ℕ) (name : String) (st : TickerState)
    (h : st.current_content_name = name) :
    (del_content adv module_w module_h name st).crossfade_active = st.crossfade_active ∧
    (del_content adv module_w module_h name st).crossfade_start = st.crossfade_start ∧
    (del_content adv module_w module_h name st).strip_next = st.strip_next ∧
    (del_content adv module_w module_h name st).next_content_name = st.next_content_name ∧
    (del_content adv module_w module_h name st).contents
      = st.contents.eraseP (fun p => p.1 == name) ∧
    (del_content adv module_w module_h name st).current_content_name
      = (((st.contents.eraseP (fun p => p.1 == name)).head?).map Prod.fst).getD "" ∧
    (del_content adv module_w module_h name st).strip_curr
      = make_strip adv module_w module_h (st.contents.eraseP (fun p => p.1 == name))
          ((((st.contents.eraseP (fun p => p.1 == name)).head?).map Prod.fst).getD "") ∧
    (st.contents.eraseP (fun p => p.1 == name) = [] →
      (del_content adv module_w module_h name st).strip_curr = none) := by
  obtain ⟨cs, ls, lc, cur, sc, nc, ca, cst, sn⟩ := st
  have h' : cur = name := h
  subst h'
  simp only [del_content]
  split
  · refine ⟨rfl, rfl, rfl, rfl, rfl, rfl, rfl, ?_⟩
    intro he
    simp [he, make_strip]
  · refine ⟨rfl, rfl, rfl, rfl, rfl, rfl, rfl, ?_⟩
    intro he
    simp [he, make_strip]

/-- Witness for C9 amended, applied at `fadingState` (current content "A"). -/
theorem del_content_active_fallback_witness :
    fadingState.current_content_name = "A" ∧
    ((del_content (fun _ _ _ => 92) 10 20 "A" fadingState).crossfade_active
        = fadingState.crossfade_active ∧
     (del_content (fun _ _ _ => 92) 10 20 "A" fadingState).crossfade_start
        = fadingState.crossfade_start ∧
     (del_content (fun _ _ _ => 92) 10 20 "A" fadingState).strip_next
        = fadingState.strip_next ∧
     (del_content (fun _ _ _ => 92) 10 20 "A" fadingState).next_content_name
        = fadingState.next_content_name ∧
     (del_content (fun _ _ _ => 92) 10 20 "A" fadingState).contents
        = fadingState.contents.eraseP (fun p => p.1 == "A") ∧
     (del_content (fun _ _ _ => 92) 10 20 "A" fadingState).current_content_name
        = (((fadingState.contents.eraseP (fun p => p.1 == "A")).head?).map Prod.fst).getD "" ∧
     (del_content (fun _ _ _ => 92) 10 20 "A" fadingState).strip_curr
        = make_strip (fun _ _ _ => 92) 10 20
            (fadingState.contents.eraseP (fun p => p.1 == "A"))
            ((((fadingState.contents.eraseP (fun p => p.1 == "A")).head?).map Prod.fst).getD "") ∧
     (fadingState.contents.eraseP (fun p => p.1 == "A") = [] →
      (del_content (fun _ _ _ => 92) 10 20 "A" fadingState).strip_curr = none)) :=
  ⟨rfl, del_content_active_fallback (fun _ _ _ => 92) 10 20 "A" fadingState rfl⟩

end LEDTicker
